import Mathlib

/-!
Shallow embedding of `src/beamlime/applications/_nexus_helpers.py`.

Nexus tree nodes in the source are open Python dicts carrying some of the
keys `name`, `module`, `config`, `attributes`, `children`.  We embed a node
as a single-constructor inductive whose fields are `Option`s: `none` models
an absent dict key.  Numeric arrays (`numpy` arrays of event data) are
embedded as `List Int`.  Python `KeyError` / `ValueError` /
`NotImplementedError` are embedded as an error type, and in-place dict
mutation is embedded as explicit state passing: every mutating function
returns the post-state of the object it mutated together with the error it
raised (if any), since a raise inside a mutation sequence leaves the earlier
mutations in place.
-/

namespace Beamlime

/-- The `config` dict of a nexus node: only the keys the engine reads. -/
structure NexusConfig where
  name : Option String := none
  dtype : Option String := none
  values : Option (List Int) := none
  source : Option String := none
deriving Repr, DecidableEq

/-- One attribute dict, e.g. the `units` attribute created by `create_dataset`. -/
structure NexusAttr where
  name : String
  dtype : String
  svalues : String
deriving Repr, DecidableEq

/-- A nexus tree node (a Python dict); `none` in a field models an absent key. -/
inductive NexusNode : Type where
  | mk (name : Option String) (module : Option String) (config : Option NexusConfig)
       (attributes : Option (List NexusAttr)) (children : Option (List NexusNode)) : NexusNode

/-- The `name` key of a node dict. -/
def NexusNode.name : NexusNode → Option String
  | .mk n _ _ _ _ => n

/-- The `module` key of a node dict. -/
def NexusNode.module : NexusNode → Option String
  | .mk _ m _ _ _ => m

/-- The `config` key of a node dict. -/
def NexusNode.config : NexusNode → Option NexusConfig
  | .mk _ _ c _ _ => c

/-- The `attributes` key of a node dict. -/
def NexusNode.attributes : NexusNode → Option (List NexusAttr)
  | .mk _ _ _ a _ => a

/-- The `children` key of a node dict. -/
def NexusNode.children : NexusNode → Option (List NexusNode)
  | .mk _ _ _ _ c => c

/-- Replace the `children` key of a node dict (used for the spread-copy idiom). -/
def NexusNode.setChildren : NexusNode → Option (List NexusNode) → NexusNode
  | .mk n m c a _, ch => .mk n m c a ch

/-- Embedding of `NexusPath`, the source's `tuple[str | None, ...]`. -/
abbrev NexusPath := List (Option String)

/-- The Python exceptions raised by the engine. -/
inductive PyErr : Type where
  | keyError
  | valueError
  | notImplementedError
deriving Repr, DecidableEq

/-- Embedding of `create_dataset`: builds a `dataset` module node; a `units`
attribute is appended exactly when a unit is given. -/
def createDataset (name : String) (dtype : String) (initialValues : List Int)
    (unit : Option String) : NexusNode :=
  .mk none (some "dataset")
    (some { name := some name, dtype := some dtype, values := some initialValues })
    (some (match unit with
      | none => []
      | some u => [{ name := "units", dtype := "string", svalues := u }]))
    none

/-- Embedding of `_node_name`: `n.get("name", config.get("name"))`. -/
def nodeName (n : NexusNode) : Option String :=
  match n.name with
  | some s => some s
  | none => n.config.bind (·.name)

/-- Embedding of `_get_array_values`: `dataset["config"]["values"]`;
`none` models the `KeyError` on a missing key. -/
def getArrayValues (d : NexusNode) : Option (List Int) :=
  d.config.bind (·.values)

/-- Embedding of `_set_values`: `dataset["config"]["values"] = values`;
`none` models the `KeyError` of `dataset["config"]` on a config-less node. -/
def setDatasetValues (d : NexusNode) (v : List Int) : Option NexusNode :=
  match d with
  | .mk nm md (some cf) attrs ch => some (.mk nm md (some { cf with values := some v }) attrs ch)
  | .mk _ _ none _ _ => none

mutual
/-- Embedding of `iter_nexus_structure`: depth-first pre-order traversal
producing `(path, node)` pairs; the root is visited with the empty path. -/
def iterNexusStructure (n : NexusNode) (root : Option NexusPath) :
    List (NexusPath × NexusNode) :=
  let path : NexusPath := match root with
    | some r => r ++ [nodeName n]
    | none => []
  (path, n) :: (match n with
    | .mk _ _ _ _ none => []
    | .mk _ _ _ _ (some cs) => iterNexusChildren cs path)
/-- Helper of `iterNexusStructure`: the `for child in structure.get("children", [])`
loop of the source generator. -/
def iterNexusChildren (cs : List NexusNode) (path : NexusPath) :
    List (NexusPath × NexusNode) :=
  match cs with
  | [] => []
  | c :: rest => iterNexusStructure c (some path) ++ iterNexusChildren rest path
end

/-- Embedding of `find_nexus_structure`: descend by matching each path
component against the first child with that `_node_name`; `KeyError` when the
node has no `children` key or no child matches. -/
def findNexusStructure (n : NexusNode) (path : NexusPath) : Except PyErr NexusNode :=
  match path with
  | [] => .ok n
  | head :: tail =>
    match n.children with
    | none => .error .keyError
    | some cs =>
      match cs.find? (fun c => nodeName c == head) with
      | none => .error .keyError
      | some c => findNexusStructure c tail

/-- Embedding of `find_parent`: `find_nexus_structure(structure, path[:-1])`. -/
def findParent (n : NexusNode) (path : NexusPath) : Except PyErr NexusNode :=
  findNexusStructure n path.dropLast

/-- A deserialized `ev44` message (`data_piece` in the source). `pixel_id` is
optional; `none` models both an absent key and an explicit `None`, which the
source treats identically. -/
structure Ev44Message where
  source_name : String
  reference_time : List Int
  time_of_flight : List Int
  reference_time_index : List Int
  pixel_id : Option (List Int) := none
deriving Repr, DecidableEq

/-- The `config.source` of a node as the source reads it: a missing `config`
key behaves like an empty dict, giving `None`. -/
def configSource (n : NexusNode) : Option String :=
  n.config.bind (·.source)

/-- Embedding of `find_ev44_matching_paths`: paths of the template nodes
with `module == "ev44"` and `config.source == data_piece["source_name"]`. -/
def findEv44MatchingPaths (struct : NexusNode) (msg : Ev44Message) : List NexusPath :=
  (iterNexusStructure struct none).filterMap fun pn =>
    if pn.2.module = some "ev44" ∧ configSource pn.2 = some msg.source_name
    then some pn.1 else none

/-- Python substring membership over lists of characters, as in `"monitor" in s`. -/
def charsContain (pat : List Char) : List Char → Bool
  | [] => pat.isEmpty
  | a :: rest => pat.isPrefixOf (a :: rest) || charsContain pat rest

/-- Embedding of the check `"monitor" in group["name"]` from `_initialize_ev44`. -/
def containsMonitor (s : String) : Bool :=
  charsContain "monitor".toList s.toList

/-- Embedding of `_initialize_ev44`: appends the empty `event_time_zero`,
`event_time_offset` and `event_index` datasets, then appends `event_id`
unless the group's name contains `"monitor"`.  Accessing `group["name"]` on a
name-less group raises `KeyError` after the first three appends are already
in place, so the partially extended group is returned with the error. -/
def initializeEv44 (g : NexusNode) : NexusNode × Option PyErr :=
  let cs := (g.children.getD []) ++
    [createDataset "event_time_zero" "int" [] (some "ns"),
     createDataset "event_time_offset" "int" [] (some "ns"),
     createDataset "event_index" "int" [] none]
  match g.name with
  | none => (g.setChildren (some cs), some .keyError)
  | some nm =>
    if containsMonitor nm then (g.setChildren (some cs), none)
    else (g.setChildren
      (some (cs ++ [createDataset "event_id" "int" [] none])), none)

/-- One field step of `_merge_ev44` on the `children` list:
`find_nexus_structure(group, (nm,))`, `_get_array_values`, `_set_values` with
the extended array.  Returns the updated children and the original values, or
`none` for the `KeyError` of a missing child / missing `config` / missing
`values`. -/
def mergeFieldChildren (nm : String) (extendVals : List Int → List Int) :
    List NexusNode → Option (List NexusNode × List Int)
  | [] => none
  | c :: rest =>
    if nodeName c = some nm then
      match getArrayValues c with
      | none => none
      | some old =>
        match setDatasetValues c (extendVals old) with
        | none => none
        | some c' => some (c' :: rest, old)
    else
      match mergeFieldChildren nm extendVals rest with
      | none => none
      | some (rest', old) => some (c :: rest', old)

/-- One field step of `_merge_ev44` on the group: locate the dataset named
`nm` among the group's children, read its values, and overwrite them with
`extendVals` of the original; also returns the original values (the offset
computation of the source needs the pre-merge `event_time_offset`). -/
def mergeField (g : NexusNode) (nm : String) (extendVals : List Int → List Int) :
    Option (NexusNode × List Int) :=
  match g.children with
  | none => none
  | some cs =>
    match mergeFieldChildren nm extendVals cs with
    | none => none
    | some (cs', old) => some (g.setChildren (some cs'), old)

/-- Embedding of `_merge_ev44`, with in-place mutation made explicit: the
returned node is the state of the group after however many field appends
succeeded, and the second component is the raised `KeyError` if any.  The
`event_index` append adds the length of the pre-merge `event_time_offset` to
the batch-local `reference_time_index`; `pixel_id` is appended to `event_id`
only when present and non-null. -/
def mergeEv44 (g : NexusNode) (msg : Ev44Message) : NexusNode × Option PyErr :=
  match mergeField g "event_time_zero" (· ++ msg.reference_time) with
  | none => (g, some .keyError)
  | some (g1, _) =>
    match mergeField g1 "event_time_offset" (· ++ msg.time_of_flight) with
    | none => (g1, some .keyError)
    | some (g2, originalOffsets) =>
      let off : Int := originalOffsets.length
      match mergeField g2 "event_index" (· ++ msg.reference_time_index.map (· + off)) with
      | none => (g2, some .keyError)
      | some (g3, _) =>
        match msg.pixel_id with
        | none => (g3, none)
        | some px =>
          match mergeField g3 "event_id" (· ++ px) with
          | none => (g3, some .keyError)
          | some (g4, _) => (g4, none)

/-- The overlay store `NexusGroupDictStore`: an insertion-ordered map from
paths to materialized groups, embedded as an association list with
first-match lookup and update-or-append insertion (Python dict semantics). -/
abbrev Store := List (NexusPath × NexusNode)

/-- Dict lookup `store[path]` (as an `Option`; `none` is the `KeyError`). -/
def storeLookup (s : Store) (p : NexusPath) : Option NexusNode :=
  match s with
  | [] => none
  | (q, g) :: rest => if q = p then some g else storeLookup rest p

/-- Dict assignment `store[path] = g`. -/
def storeInsert (s : Store) (p : NexusPath) (g : NexusNode) : Store :=
  match s with
  | [] => [(p, g)]
  | (q, h) :: rest => if q = p then (p, g) :: rest else (q, h) :: storeInsert rest p g

/-- The `except KeyError` branch of `_merge_message_into_data_module_store`:
look up the parent of `path` in the template, raise `ValueError` when it has
more than one child, otherwise insert the spread-copy of the parent with
empty children, initialize its datasets, and merge the data piece.  The store
is mutated before the initializer and merger run, so their failures leave the
fresh (partially filled) entry behind. -/
def exceptBranchEv44 (struct : NexusNode) (msg : Ev44Message)
    (store : Store) (path : NexusPath) : Store × Option PyErr :=
  match findParent struct path with
  | .error e => (store, some e)
  | .ok parent =>
    match parent.children with
    | none => (store, some .keyError)
    | some cs =>
      if 1 < cs.length then (store, some .valueError)
      else
        let fresh := parent.setChildren (some [])
        let store1 := storeInsert store path fresh
        match initializeEv44 fresh with
        | (ginit, some e) => (storeInsert store1 path ginit, some e)
        | (ginit, none) =>
          let store2 := storeInsert store1 path ginit
          match mergeEv44 ginit msg with
          | (gm, e) => (storeInsert store2 path gm, e)

/-- The body of the `for path in path_matching_func(...)` loop of
`_merge_message_into_data_module_store` for one path: try to merge into the
stored group; on `KeyError` (from the store lookup or from inside the merge)
fall into the lazy-materialization branch.  The mutated state of a failed
in-place merge stays in the store. -/
def mergePathEv44 (struct : NexusNode) (msg : Ev44Message)
    (store : Store) (path : NexusPath) : Store × Option PyErr :=
  match storeLookup store path with
  | none => exceptBranchEv44 struct msg store path
  | some g =>
    match mergeEv44 g msg with
    | (g', none) => (storeInsert store path g', none)
    | (g', some .keyError) => exceptBranchEv44 struct msg (storeInsert store path g') path
    | (g', some e) => (storeInsert store path g', some e)

/-- The `for path in ...` loop of `_merge_message_into_data_module_store`:
paths are processed in traversal order and an uncaught exception aborts the
remaining iterations, leaving the store as mutated so far. -/
def mergeLoopEv44 (struct : NexusNode) (msg : Ev44Message) :
    Store → List NexusPath → Store × Option PyErr
  | store, [] => (store, none)
  | store, p :: ps =>
    match mergePathEv44 struct msg store p with
    | (store', none) => mergeLoopEv44 struct msg store' ps
    | (store', some e) => (store', some e)

/-- Embedding of `_merge_message_into_data_module_store` instantiated for ev44, as done by
`merge_message_into_data_module_store`. -/
def mergeMessageEv44 (store : Store) (struct : NexusNode) (msg : Ev44Message) :
    Store × Option PyErr :=
  mergeLoopEv44 struct msg store (findEv44MatchingPaths struct msg)

/-- Embedding of `merge_message_into_data_module_store`: dispatch on the
module kind; only `"ev44"` is implemented. -/
def mergeMessage (store : Store) (struct : NexusNode) (kind : String)
    (msg : Ev44Message) : Store × Option PyErr :=
  if kind = "ev44" then mergeMessageEv44 store struct msg
  else (store, some .notImplementedError)

/-- Sub-store of `combine_data_module_store_and_structure`: the entries whose
first path component equals the child's name, with that component stripped.
A zero-length key would make the source's tuple unpacking raise; such keys
never occur (the store is keyed by placeholder paths, which are non-empty
for any child position) and are skipped here. -/
def subStore (store : Store) (nm : Option String) : Store :=
  store.filterMap fun pg =>
    match pg.1 with
    | [] => none
    | h :: t => if h = nm then some (t, pg.2) else none

mutual
/-- Embedding of `combine_data_module_store_and_structure`: an empty store
returns the template unchanged; a root-path entry overrides the whole tree;
otherwise the children are rebuilt recursively against the restricted
sub-stores. -/
def combineStoreAndStructure (store : Store) (struct : NexusNode) : NexusNode :=
  if store.length = 0 then struct
  else
    match storeLookup store [none] with
    | some g => g
    | none =>
      match struct with
      | .mk nm md cf attrs none => .mk nm md cf attrs none
      | .mk nm md cf attrs (some cs) =>
        .mk nm md cf attrs (some (combineChildren store cs))
/-- Helper of `combineStoreAndStructure`: the loop over `structure["children"]`. -/
def combineChildren (store : Store) : List NexusNode → List NexusNode
  | [] => []
  | c :: rest =>
    combineStoreAndStructure (subStore store (nodeName c)) c :: combineChildren store rest
end

/-- Values of the field dataset named `nm` inside a materialized group, read
the way `_merge_ev44` reads them (first name match, then `config.values`). -/
def fieldVals (g : NexusNode) (nm : String) : Option (List Int) :=
  match findNexusStructure g [some nm] with
  | .ok d => getArrayValues d
  | .error _ => none

/-- Length of the field dataset named `nm` (0 when absent). -/
def fieldLen (g : NexusNode) (nm : String) : Nat :=
  ((fieldVals g nm).getD []).length

/-- Values of a field of the stored group at `p` (for closed evaluations). -/
def fieldValsAt (s : Store) (p : NexusPath) (nm : String) : Option (List Int) :=
  (storeLookup s p).bind (fieldVals · nm)

/-- Length of a field of the stored group at `p` (0 when absent). -/
def fieldLenAt (s : Store) (p : NexusPath) (nm : String) : Nat :=
  ((fieldValsAt s p nm).getD []).length

/-- The dtype string of the field dataset named `nm` inside a group. -/
def fieldDtype (g : NexusNode) (nm : String) : Option String :=
  match findNexusStructure g [some nm] with
  | .ok d => d.config.bind (·.dtype)
  | .error _ => none

/-- Field values at the children level, as `_merge_ev44` locates them:
first child whose `_node_name` matches, then its `config.values`. -/
def childVals (cs : List NexusNode) (nm : String) : Option (List Int) :=
  (cs.find? (fun c => nodeName c == some nm)).bind getArrayValues

/-- A stored group is ready for a message when the three always-appended
field datasets carry values and, if the message brings `pixel_id`, the
`event_id` dataset exists as well, so that `_merge_ev44` raises no
`KeyError` on it. -/
def EntryReady (g : NexusNode) (msg : Ev44Message) : Prop :=
  (fieldVals g "event_time_zero").isSome = true ∧
  (fieldVals g "event_time_offset").isSome = true ∧
  (fieldVals g "event_index").isSome = true ∧
  (msg.pixel_id ≠ none → (fieldVals g "event_id").isSome = true)

mutual
/-- No two sibling nodes anywhere in the tree share the same `_node_name`. -/
def uniqNames : NexusNode → Bool
  | .mk _ _ _ _ none => true
  | .mk _ _ _ _ (some cs) => decide ((cs.map nodeName).Nodup) && uniqList cs
/-- Conjunction of `uniqNames` over every node of a list of subtrees. -/
def uniqList : List NexusNode → Bool
  | [] => true
  | c :: rest => uniqNames c && uniqList rest
end

/-- Fixture: an ev44 module placeholder declaring source `"bankA"`. -/
def phBankA : NexusNode :=
  .mk none (some "ev44") (some { source := some "bankA" }) none none

/-- Fixture: a detector group whose only child is `phBankA`. -/
def detGroup : NexusNode :=
  .mk (some "detector") none none none (some [phBankA])

/-- Template fixture: a root holding one detector group whose only child is
an ev44 module placeholder for source `"bankA"`. -/
def tmplDetector : NexusNode :=
  .mk (some "root") none none none (some [detGroup])

/-- The store path materialized for `tmplDetector`'s placeholder. -/
def pathDetector : NexusPath := [some "detector", none]

/-- Fixture: a monitor group (name contains `"monitor"`) whose only child is
an ev44 placeholder for source `"mon"`. -/
def monGroup : NexusNode :=
  .mk (some "monitor0") none none none
    (some [.mk none (some "ev44") (some { source := some "mon" }) none none])

/-- Template fixture: a root holding `monGroup`. -/
def tmplMonitor : NexusNode :=
  .mk (some "root") none none none (some [monGroup])

/-- The store path materialized for `tmplMonitor`'s placeholder. -/
def pathMonitor : NexusPath := [some "monitor0", none]

/-- Template fixture: two distinct detector groups both holding an ev44
placeholder declaring the same source `"bankA"`. -/
def tmplTwoBanks : NexusNode :=
  .mk (some "root") none none none
    (some [.mk (some "bank0") none none none (some [phBankA]),
           .mk (some "bank1") none none none (some [phBankA])])

/-- Fixture: a group holding `phBankA` next to a second child, so that the
placeholder's group has two children. -/
def crowdedGroup : NexusNode :=
  .mk (some "detector") none none none
    (some [phBankA, createDataset "depends_on" "string" [] none])

/-- Template fixture: a root holding `crowdedGroup`. -/
def tmplCrowded : NexusNode :=
  .mk (some "root") none none none (some [crowdedGroup])

/-- Message fixture: a first batch for source `"mon"` without pixel ids. -/
def msgMon1 : Ev44Message :=
  { source_name := "mon", reference_time := [10], time_of_flight := [5, 6],
    reference_time_index := [0], pixel_id := none }

/-- Message fixture: a second batch for source `"mon"` carrying pixel ids. -/
def msgMon2 : Ev44Message :=
  { source_name := "mon", reference_time := [20], time_of_flight := [7],
    reference_time_index := [0], pixel_id := some [1] }

/-- Message fixture: a batch for source `"bankA"` carrying pixel ids. -/
def msgBankA : Ev44Message :=
  { source_name := "bankA", reference_time := [100], time_of_flight := [5, 6],
    reference_time_index := [0], pixel_id := some [1, 2] }

/-- Message fixture: a second batch for source `"bankA"`. -/
def msgBankA2 : Ev44Message :=
  { source_name := "bankA", reference_time := [200], time_of_flight := [7],
    reference_time_index := [0], pixel_id := some [3] }

/-- Fixture: the store entry the detector path holds after `msgBankA` was
merged into an empty store (spread-copy of the parent, initialized, then
merged). -/
def detEntryAfterFirst : NexusNode :=
  (mergeEv44 (initializeEv44 (detGroup.setChildren (some []))).1 msgBankA).1

theorem storeLookup_insert_self (s : Store) (p : NexusPath) (g : NexusNode) :
    storeLookup (storeInsert s p g) p = some g := by
  induction s with
  | nil => simp [storeInsert, storeLookup]
  | cons kv rest ih =>
    obtain ⟨q, h⟩ := kv
    by_cases hq : q = p
    · simp [storeInsert, storeLookup, hq]
    · simp [storeInsert, storeLookup, hq, ih]

theorem storeLookup_insert_ne (s : Store) (p q : NexusPath) (g : NexusNode)
    (hne : q ≠ p) : storeLookup (storeInsert s p g) q = storeLookup s q := by
  induction s with
  | nil =>
    simp only [storeInsert, storeLookup]
    rw [if_neg (fun hpq => hne hpq.symm)]
  | cons kv rest ih =>
    obtain ⟨k, h⟩ := kv
    by_cases hk : k = p
    · subst hk
      simp only [storeInsert, if_pos rfl, storeLookup]
      rw [if_neg (fun hpq => hne hpq.symm), if_neg (fun hpq => hne hpq.symm)]
    · simp only [storeInsert, if_neg hk, storeLookup]
      by_cases hkq : k = q
      · rw [if_pos hkq, if_pos hkq]
      · rw [if_neg hkq, if_neg hkq, ih]

theorem lookup_insert_split (s : Store) (p q : NexusPath) (g : NexusNode) :
    storeLookup (storeInsert s p g) q = if q = p then some g else storeLookup s q := by
  by_cases hq : q = p
  · subst hq; rw [if_pos rfl, storeLookup_insert_self]
  · rw [if_neg hq, storeLookup_insert_ne _ _ _ _ hq]

theorem findNexusStructure_error (n : NexusNode) (p : NexusPath) (e : PyErr)
    (h : findNexusStructure n p = .error e) : e = .keyError := by
  induction p generalizing n with
  | nil => simp [findNexusStructure] at h
  | cons head tail ih =>
    unfold findNexusStructure at h
    split at h
    · exact ((Except.error.injEq _ _).mp h).symm
    · split at h
      · exact ((Except.error.injEq _ _).mp h).symm
      · exact ih _ h

theorem initializeEv44_noValueError (g : NexusNode) :
    (initializeEv44 g).2 = none ∨ (initializeEv44 g).2 = some .keyError := by
  unfold initializeEv44
  repeat' split
  all_goals simp

theorem mergeEv44_noValueError (g : NexusNode) (msg : Ev44Message) :
    (mergeEv44 g msg).2 = none ∨ (mergeEv44 g msg).2 = some .keyError := by
  unfold mergeEv44
  cases h1 : mergeField g "event_time_zero" fun x => x ++ msg.reference_time with
  | none => simp
  | some pr1 =>
    obtain ⟨g1, o1⟩ := pr1
    dsimp only
    cases h2 : mergeField g1 "event_time_offset" fun x => x ++ msg.time_of_flight with
    | none => simp
    | some pr2 =>
      obtain ⟨g2, o2⟩ := pr2
      dsimp only
      cases h3 : mergeField g2 "event_index"
          fun x => x ++ msg.reference_time_index.map (· + (o2.length : Int)) with
      | none => simp
      | some pr3 =>
        obtain ⟨g3, o3⟩ := pr3
        dsimp only
        cases hp : msg.pixel_id with
        | none => simp
        | some px =>
          dsimp only
          cases h4 : mergeField g3 "event_id" fun x => x ++ px with
          | none => simp
          | some pr4 => obtain ⟨g4, o4⟩ := pr4; simp

theorem setChildren_children (g : NexusNode) (ch : Option (List NexusNode)) :
    (g.setChildren ch).children = ch := by
  cases g; rfl

theorem fieldVals_eq_childVals (g : NexusNode) (nm : String) :
    fieldVals g nm = match g.children with
      | none => none
      | some cs => childVals cs nm := by
  unfold fieldVals findNexusStructure
  cases g.children with
  | none => rfl
  | some cs =>
    simp only [childVals]
    cases cs.find? (fun c => nodeName c == some nm) with
    | none => rfl
    | some c => simp [findNexusStructure, Option.bind]

theorem setDatasetValues_eq_some (c c' : NexusNode) (v : List Int)
    (h : setDatasetValues c v = some c') :
    nodeName c' = nodeName c ∧ getArrayValues c' = some v := by
  cases c with
  | mk nm md cf attrs ch =>
    cases cf with
    | none => simp [setDatasetValues] at h
    | some cfg =>
      simp only [setDatasetValues] at h
      injection h with h2
      subst h2
      cases nm <;>
        simp [nodeName, NexusNode.name, NexusNode.config, getArrayValues]

theorem setDatasetValues_of_getArrayValues (c : NexusNode) (old v : List Int)
    (h : getArrayValues c = some old) : ∃ c', setDatasetValues c v = some c' := by
  cases c with
  | mk nm md cf attrs ch =>
    cases cf with
    | none => simp [getArrayValues, NexusNode.config] at h
    | some cfg => exact ⟨_, rfl⟩

theorem childVals_cons_pos (c : NexusNode) (rest : List NexusNode) (nm : String)
    (h : nodeName c = some nm) : childVals (c :: rest) nm = getArrayValues c := by
  simp [childVals, List.find?, h]

theorem childVals_cons_neg (c : NexusNode) (rest : List NexusNode) (nm : String)
    (h : nodeName c ≠ some nm) : childVals (c :: rest) nm = childVals rest nm := by
  have hb : (nodeName c == some nm) = false := by simp [h]
  simp [childVals, List.find?, hb]

theorem mergeFieldChildren_eq_some (nm : String) (f : List Int → List Int)
    (cs cs' : List NexusNode) (old : List Int)
    (h : mergeFieldChildren nm f cs = some (cs', old)) :
    childVals cs nm = some old ∧ childVals cs' nm = some (f old) ∧
    ∀ nm', nm' ≠ nm → childVals cs' nm' = childVals cs nm' := by
  induction cs generalizing cs' with
  | nil => simp [mergeFieldChildren] at h
  | cons c rest ih =>
    by_cases hc : nodeName c = some nm
    · simp only [mergeFieldChildren, if_pos hc] at h
      cases hg : getArrayValues c with
      | none => simp [hg] at h
      | some oldg =>
        simp only [hg] at h
        cases hs : setDatasetValues c (f oldg) with
        | none => simp [hs] at h
        | some c' =>
          simp only [hs, Option.some.injEq, Prod.mk.injEq] at h
          obtain ⟨hcs', hold⟩ := h
          subst hcs'; subst hold
          obtain ⟨hname, hvals⟩ := setDatasetValues_eq_some c c' (f oldg) hs
          refine ⟨?_, ?_, ?_⟩
          · rw [childVals_cons_pos c rest nm hc, hg]
          · rw [childVals_cons_pos c' rest nm (hname.trans hc), hvals]
          · intro nm' hne
            have hcne : nodeName c ≠ some nm' := by
              rw [hc]
              intro hx
              exact hne (Option.some.inj hx).symm
            rw [childVals_cons_neg c rest nm' hcne,
              childVals_cons_neg c' rest nm' (by rw [hname]; exact hcne)]
    · simp only [mergeFieldChildren, if_neg hc] at h
      cases hrec : mergeFieldChildren nm f rest with
      | none => simp [hrec] at h
      | some pr =>
        obtain ⟨rest', oldr⟩ := pr
        simp only [hrec, Option.some.injEq, Prod.mk.injEq] at h
        obtain ⟨hcs', hold⟩ := h
        subst hcs'; subst hold
        obtain ⟨h1, h2, h3⟩ := ih rest' hrec
        refine ⟨?_, ?_, ?_⟩
        · rw [childVals_cons_neg c rest nm hc]; exact h1
        · rw [childVals_cons_neg c rest' nm hc]; exact h2
        · intro nm' hne
          by_cases hc2 : nodeName c = some nm'
          · rw [childVals_cons_pos c rest' nm' hc2, childVals_cons_pos c rest nm' hc2]
          · rw [childVals_cons_neg c rest' nm' hc2, childVals_cons_neg c rest nm' hc2]
            exact h3 nm' hne

theorem mergeFieldChildren_of_childVals (nm : String) (f : List Int → List Int)
    (cs : List NexusNode) (old : List Int) (h : childVals cs nm = some old) :
    ∃ cs', mergeFieldChildren nm f cs = some (cs', old) := by
  induction cs with
  | nil => simp [childVals] at h
  | cons c rest ih =>
    by_cases hc : nodeName c = some nm
    · rw [childVals_cons_pos c rest nm hc] at h
      obtain ⟨c', hs⟩ := setDatasetValues_of_getArrayValues c old (f old) h
      exact ⟨c' :: rest, by simp [mergeFieldChildren, if_pos hc, h, hs]⟩
    · rw [childVals_cons_neg c rest nm hc] at h
      obtain ⟨rest', hrest⟩ := ih h
      exact ⟨c :: rest', by simp [mergeFieldChildren, if_neg hc, hrest]⟩

theorem mergeField_eq_some (g g' : NexusNode) (nm : String)
    (f : List Int → List Int) (old : List Int)
    (h : mergeField g nm f = some (g', old)) :
    fieldVals g nm = some old ∧ fieldVals g' nm = some (f old) ∧
    ∀ nm', nm' ≠ nm → fieldVals g' nm' = fieldVals g nm' := by
  unfold mergeField at h
  cases hch : g.children with
  | none => simp [hch] at h
  | some cs =>
    simp only [hch] at h
    cases hmc : mergeFieldChildren nm f cs with
    | none => simp [hmc] at h
    | some pr =>
      obtain ⟨cs', oldc⟩ := pr
      simp only [hmc, Option.some.injEq, Prod.mk.injEq] at h
      obtain ⟨hg', hold⟩ := h
      subst hold
      obtain ⟨h1, h2, h3⟩ := mergeFieldChildren_eq_some nm f cs cs' oldc hmc
      have hch' : g'.children = some cs' := by
        rw [← hg']; exact setChildren_children g (some cs')
      refine ⟨?_, ?_, ?_⟩
      · rw [fieldVals_eq_childVals, hch]; exact h1
      · rw [fieldVals_eq_childVals, hch']; exact h2
      · intro nm' hne
        rw [fieldVals_eq_childVals, fieldVals_eq_childVals, hch, hch']
        exact h3 nm' hne

theorem mergeField_of_fieldVals (g : NexusNode) (nm : String)
    (f : List Int → List Int) (old : List Int) (h : fieldVals g nm = some old) :
    ∃ g', mergeField g nm f = some (g', old) := by
  rw [fieldVals_eq_childVals] at h
  cases hch : g.children with
  | none => rw [hch] at h; simp at h
  | some cs =>
    rw [hch] at h
    obtain ⟨cs', hcs'⟩ := mergeFieldChildren_of_childVals nm f cs old h
    exact ⟨g.setChildren (some cs'), by simp [mergeField, hch, hcs']⟩

theorem mergeEv44_spec (g : NexusNode) (msg : Ev44Message) (vz vo vi : List Int)
    (hz : fieldVals g "event_time_zero" = some vz)
    (ho : fieldVals g "event_time_offset" = some vo)
    (hi : fieldVals g "event_index" = some vi)
    (hp : msg.pixel_id ≠ none → (fieldVals g "event_id").isSome = true) :
    (mergeEv44 g msg).2 = none ∧
    fieldVals (mergeEv44 g msg).1 "event_time_zero" = some (vz ++ msg.reference_time) ∧
    fieldVals (mergeEv44 g msg).1 "event_time_offset" = some (vo ++ msg.time_of_flight) ∧
    fieldVals (mergeEv44 g msg).1 "event_index"
      = some (vi ++ msg.reference_time_index.map (· + (vo.length : Int))) ∧
    (msg.pixel_id = none →
      fieldVals (mergeEv44 g msg).1 "event_id" = fieldVals g "event_id") ∧
    (∀ px vd, msg.pixel_id = some px → fieldVals g "event_id" = some vd →
      fieldVals (mergeEv44 g msg).1 "event_id" = some (vd ++ px)) ∧
    ∀ nm', nm' ≠ "event_time_zero" → nm' ≠ "event_time_offset" →
      nm' ≠ "event_index" → nm' ≠ "event_id" →
      fieldVals (mergeEv44 g msg).1 nm' = fieldVals g nm' := by
  obtain ⟨g1, h1⟩ :=
    mergeField_of_fieldVals g "event_time_zero" (· ++ msg.reference_time) vz hz
  obtain ⟨h1a, h1b, h1c⟩ := mergeField_eq_some g g1 "event_time_zero" _ vz h1
  have ho1 : fieldVals g1 "event_time_offset" = some vo := by
    rw [h1c _ (by decide)]; exact ho
  obtain ⟨g2, h2⟩ :=
    mergeField_of_fieldVals g1 "event_time_offset" (· ++ msg.time_of_flight) vo ho1
  obtain ⟨h2a, h2b, h2c⟩ := mergeField_eq_some g1 g2 "event_time_offset" _ vo h2
  have hi2 : fieldVals g2 "event_index" = some vi := by
    rw [h2c _ (by decide), h1c _ (by decide)]; exact hi
  obtain ⟨g3, h3⟩ := mergeField_of_fieldVals g2 "event_index"
    (· ++ msg.reference_time_index.map (· + (vo.length : Int))) vi hi2
  obtain ⟨h3a, h3b, h3c⟩ := mergeField_eq_some g2 g3 "event_index" _ vi h3
  cases hpx : msg.pixel_id with
  | none =>
    have hme : mergeEv44 g msg = (g3, none) := by
      unfold mergeEv44
      rw [h1]; dsimp only
      rw [h2]; dsimp only
      rw [h3]; dsimp only
      rw [hpx]
    rw [hme]
    refine ⟨rfl, ?_, ?_, ?_, ?_, ?_, ?_⟩
    · rw [h3c _ (by decide), h2c _ (by decide), h1b]
    · rw [h3c _ (by decide), h2b]
    · exact h3b
    · intro _
      rw [h3c _ (by decide), h2c _ (by decide), h1c _ (by decide)]
    · intro px vd hpx' _
      exact absurd hpx' (by simp)
    · intro nm' hn1 hn2 hn3 _
      rw [h3c _ hn3, h2c _ hn2, h1c _ hn1]
  | some px =>
    have hid : (fieldVals g "event_id").isSome = true := hp (by rw [hpx]; simp)
    obtain ⟨vd, hvd⟩ := Option.isSome_iff_exists.mp hid
    have hvd3 : fieldVals g3 "event_id" = some vd := by
      rw [h3c _ (by decide), h2c _ (by decide), h1c _ (by decide)]; exact hvd
    obtain ⟨g4, h4⟩ := mergeField_of_fieldVals g3 "event_id" (· ++ px) vd hvd3
    obtain ⟨h4a, h4b, h4c⟩ := mergeField_eq_some g3 g4 "event_id" _ vd h4
    have hme : mergeEv44 g msg = (g4, none) := by
      unfold mergeEv44
      rw [h1]; dsimp only
      rw [h2]; dsimp only
      rw [h3]; dsimp only
      rw [hpx]; dsimp only
      rw [h4]
    rw [hme]
    refine ⟨rfl, ?_, ?_, ?_, ?_, ?_, ?_⟩
    · rw [h4c _ (by decide), h3c _ (by decide), h2c _ (by decide), h1b]
    · rw [h4c _ (by decide), h3c _ (by decide), h2b]
    · rw [h4c _ (by decide)]; exact h3b
    · intro hnone
      exact absurd hnone (by simp)
    · intro px' vd' hpx' hvd'
      have hpx2 : px' = px := (Option.some.inj hpx').symm
      have hvd2 : vd' = vd := by
        rw [hvd] at hvd'
        exact (Option.some.inj hvd').symm
      rw [hpx2, hvd2, h4b]
    · intro nm' hn1 hn2 hn3 hn4
      rw [h4c _ hn4, h3c _ hn3, h2c _ hn2, h1c _ hn1]

theorem mergeEv44_ready (g : NexusNode) (msg : Ev44Message) (h : EntryReady g msg) :
    (mergeEv44 g msg).2 = none ∧ EntryReady (mergeEv44 g msg).1 msg ∧
    ∀ nm, fieldLen g nm ≤ fieldLen (mergeEv44 g msg).1 nm := by
  obtain ⟨hz, ho, hi, hpr⟩ := h
  obtain ⟨vz, hvz⟩ := Option.isSome_iff_exists.mp hz
  obtain ⟨vo, hvo⟩ := Option.isSome_iff_exists.mp ho
  obtain ⟨vi, hvi⟩ := Option.isSome_iff_exists.mp hi
  obtain ⟨he, s1, s2, s3, s4, s5, s6⟩ := mergeEv44_spec g msg vz vo vi hvz hvo hvi hpr
  refine ⟨he, ⟨?_, ?_, ?_, ?_⟩, ?_⟩
  · rw [s1]; rfl
  · rw [s2]; rfl
  · rw [s3]; rfl
  · intro hpix
    cases hpx : msg.pixel_id with
    | none => exact absurd hpx hpix
    | some px =>
      obtain ⟨vd, hvd⟩ := Option.isSome_iff_exists.mp (hpr hpix)
      rw [s5 px vd hpx hvd]; rfl
  · intro nm
    by_cases hn1 : nm = "event_time_zero"
    · subst hn1; simp [fieldLen, hvz, s1]
    by_cases hn2 : nm = "event_time_offset"
    · subst hn2; simp [fieldLen, hvo, s2]
    by_cases hn3 : nm = "event_index"
    · subst hn3; simp [fieldLen, hvi, s3]
    by_cases hn4 : nm = "event_id"
    · subst hn4
      cases hpx : msg.pixel_id with
      | none => rw [fieldLen, fieldLen, s4 hpx]
      | some px =>
        obtain ⟨vd, hvd⟩ := Option.isSome_iff_exists.mp (hpr (by rw [hpx]; simp))
        simp [fieldLen, hvd, s5 px vd hpx hvd]
    · rw [fieldLen, fieldLen, s6 nm hn1 hn2 hn3 hn4]

theorem mergeEv44_ok_ready (g : NexusNode) (msg : Ev44Message)
    (h : (mergeEv44 g msg).2 = none) : EntryReady (mergeEv44 g msg).1 msg := by
  unfold mergeEv44 at h ⊢
  cases h1 : mergeField g "event_time_zero" fun x => x ++ msg.reference_time with
  | none => rw [h1] at h; simp at h
  | some pr1 =>
    obtain ⟨g1, o1⟩ := pr1
    rw [h1] at h
    dsimp only at h ⊢
    obtain ⟨_, h1b, h1c⟩ := mergeField_eq_some g g1 "event_time_zero" _ o1 h1
    cases h2 : mergeField g1 "event_time_offset" fun x => x ++ msg.time_of_flight with
    | none => rw [h2] at h; simp at h
    | some pr2 =>
      obtain ⟨g2, o2⟩ := pr2
      rw [h2] at h
      dsimp only at h ⊢
      obtain ⟨_, h2b, h2c⟩ := mergeField_eq_some g1 g2 "event_time_offset" _ o2 h2
      cases h3 : mergeField g2 "event_index"
          fun x => x ++ msg.reference_time_index.map (· + (o2.length : Int)) with
      | none => rw [h3] at h; simp at h
      | some pr3 =>
        obtain ⟨g3, o3⟩ := pr3
        rw [h3] at h
        dsimp only at h ⊢
        obtain ⟨_, h3b, h3c⟩ := mergeField_eq_some g2 g3 "event_index" _ o3 h3
        cases hpx : msg.pixel_id with
        | none =>
          refine ⟨?_, ?_, ?_, ?_⟩
          · rw [h3c _ (by decide), h2c _ (by decide), h1b]; rfl
          · rw [h3c _ (by decide), h2b]; rfl
          · rw [h3b]; rfl
          · intro hpix; exact absurd hpx hpix
        | some px =>
          rw [hpx] at h
          dsimp only at h ⊢
          cases h4 : mergeField g3 "event_id" fun x => x ++ px with
          | none => rw [h4] at h; simp at h
          | some pr4 =>
            obtain ⟨g4, o4⟩ := pr4
            rw [h4] at h
            dsimp only at h ⊢
            obtain ⟨_, h4b, h4c⟩ := mergeField_eq_some g3 g4 "event_id" _ o4 h4
            refine ⟨?_, ?_, ?_, ?_⟩
            · rw [h4c _ (by decide), h3c _ (by decide), h2c _ (by decide), h1b]; rfl
            · rw [h4c _ (by decide), h3c _ (by decide), h2b]; rfl
            · rw [h4c _ (by decide), h3b]; rfl
            · intro _; rw [h4b]; rfl

theorem exceptBranch_lookup_ne (struct : NexusNode) (msg : Ev44Message)
    (store : Store) (p q : NexusPath) (hq : q ≠ p) :
    storeLookup (exceptBranchEv44 struct msg store p).1 q = storeLookup store q := by
  unfold exceptBranchEv44
  cases hpar : findParent struct p with
  | error e => rfl
  | ok parent =>
    dsimp only
    cases hch : parent.children with
    | none => rfl
    | some cs =>
      dsimp only
      by_cases hlen : 1 < cs.length
      · rw [if_pos hlen]
      · rw [if_neg hlen]
        cases hinit : initializeEv44 (parent.setChildren (some [])) with
        | mk ginit e1 =>
          cases e1 with
          | some e => dsimp only; simp [lookup_insert_split, hq]
          | none =>
            dsimp only
            cases hm : mergeEv44 ginit msg with
            | mk gm e2 => dsimp only; simp [lookup_insert_split, hq]

theorem exceptBranch_isSome (struct : NexusNode) (msg : Ev44Message)
    (store : Store) (p q : NexusPath)
    (h : (storeLookup store q).isSome = true) :
    (storeLookup (exceptBranchEv44 struct msg store p).1 q).isSome = true := by
  by_cases hq : q = p
  · subst hq
    unfold exceptBranchEv44
    cases hpar : findParent struct q with
    | error e => exact h
    | ok parent =>
      dsimp only
      cases hch : parent.children with
      | none => exact h
      | some cs =>
        dsimp only
        by_cases hlen : 1 < cs.length
        · rw [if_pos hlen]; exact h
        · rw [if_neg hlen]
          cases hinit : initializeEv44 (parent.setChildren (some [])) with
          | mk ginit e1 =>
            cases e1 with
            | some e => dsimp only; simp [lookup_insert_split]
            | none =>
              dsimp only
              cases hm : mergeEv44 ginit msg with
              | mk gm e2 => dsimp only; simp [lookup_insert_split]
  · rw [exceptBranch_lookup_ne _ _ _ _ _ hq]; exact h

theorem exceptBranch_ok (struct : NexusNode) (msg : Ev44Message)
    (store : Store) (p : NexusPath)
    (h : (exceptBranchEv44 struct msg store p).2 = none) :
    ∃ ginit, (mergeEv44 ginit msg).2 = none ∧
      ∀ q, storeLookup (exceptBranchEv44 struct msg store p).1 q
        = if q = p then some (mergeEv44 ginit msg).1 else storeLookup store q := by
  unfold exceptBranchEv44 at h ⊢
  cases hpar : findParent struct p with
  | error e => rw [hpar] at h; simp at h
  | ok parent =>
    rw [hpar] at h
    dsimp only at h ⊢
    cases hch : parent.children with
    | none => rw [hch] at h; simp at h
    | some cs =>
      rw [hch] at h
      dsimp only at h ⊢
      by_cases hlen : 1 < cs.length
      · rw [if_pos hlen] at h; simp at h
      · rw [if_neg hlen] at h ⊢
        cases hinit : initializeEv44 (parent.setChildren (some [])) with
        | mk ginit e1 =>
          rw [hinit] at h
          cases e1 with
          | some e => simp at h
          | none =>
            dsimp only at h ⊢
            cases hm : mergeEv44 ginit msg with
            | mk gm e2 =>
              rw [hm] at h
              dsimp only at h
              subst h
              refine ⟨ginit, by rw [hm], fun q => ?_⟩
              rw [hm]
              by_cases hq : q = p
              · subst hq
                simp [lookup_insert_split]
              · simp [lookup_insert_split, hq]

theorem mergePath_lookup_ne (struct : NexusNode) (msg : Ev44Message)
    (store : Store) (p q : NexusPath) (hq : q ≠ p) :
    storeLookup (mergePathEv44 struct msg store p).1 q = storeLookup store q := by
  unfold mergePathEv44
  cases hl : storeLookup store p with
  | none => exact exceptBranch_lookup_ne _ _ _ _ _ hq
  | some g =>
    dsimp only
    cases hm : mergeEv44 g msg with
    | mk g' e =>
      cases e with
      | none => simp [lookup_insert_split, hq]
      | some e =>
        cases e with
        | keyError =>
          dsimp only
          rw [exceptBranch_lookup_ne _ _ _ _ _ hq]
          simp [lookup_insert_split, hq]
        | valueError => simp [lookup_insert_split, hq]
        | notImplementedError => simp [lookup_insert_split, hq]

theorem mergePath_isSome (struct : NexusNode) (msg : Ev44Message)
    (store : Store) (p q : NexusPath)
    (h : (storeLookup store q).isSome = true) :
    (storeLookup (mergePathEv44 struct msg store p).1 q).isSome = true := by
  by_cases hq : q = p
  · subst hq
    unfold mergePathEv44
    cases hl : storeLookup store q with
    | none => exact exceptBranch_isSome _ _ _ _ _ h
    | some g =>
      dsimp only
      cases hm : mergeEv44 g msg with
      | mk g' e =>
        cases e with
        | none => simp [lookup_insert_split]
        | some e =>
          cases e with
          | keyError =>
            dsimp only
            refine exceptBranch_isSome _ _ _ _ _ ?_
            simp [lookup_insert_split]
          | valueError => simp [lookup_insert_split]
          | notImplementedError => simp [lookup_insert_split]
  · rw [mergePath_lookup_ne _ _ _ _ _ hq]; exact h

theorem mergeLoop_lookup_notin (struct : NexusNode) (msg : Ev44Message)
    (ps : List NexusPath) : ∀ store q, q ∉ ps →
    storeLookup (mergeLoopEv44 struct msg store ps).1 q = storeLookup store q := by
  induction ps with
  | nil => intro store q _; rfl
  | cons p rest ih =>
    intro store q hq
    have hqp : q ≠ p := fun hc => hq (hc ▸ List.mem_cons_self p rest)
    have hqr : q ∉ rest := fun hc => hq (List.mem_cons_of_mem p hc)
    unfold mergeLoopEv44
    cases hs : mergePathEv44 struct msg store p with
    | mk store' e =>
      have hframe : storeLookup store' q = storeLookup store q := by
        have := mergePath_lookup_ne struct msg store p q hqp
        rw [hs] at this
        exact this
      cases e with
      | none => dsimp only; rw [ih store' q hqr, hframe]
      | some e => dsimp only; rw [hframe]

theorem mergePath_of_ready (struct : NexusNode) (msg : Ev44Message) (store : Store)
    (p : NexusPath) (g : NexusNode) (hl : storeLookup store p = some g)
    (hr : EntryReady g msg) :
    mergePathEv44 struct msg store p = (storeInsert store p (mergeEv44 g msg).1, none) := by
  unfold mergePathEv44
  rw [hl]
  dsimp only
  have he := (mergeEv44_ready g msg hr).1
  cases hm : mergeEv44 g msg with
  | mk g' e =>
    rw [hm] at he
    dsimp only at he
    subst he
    dsimp only

theorem mergeLoop_growth (struct : NexusNode) (msg : Ev44Message) (ps : List NexusPath) :
    ∀ store : Store,
    (∀ q h0, storeLookup store q = some h0 → EntryReady h0 msg) →
    ∀ q h0, storeLookup store q = some h0 →
      ∃ h1, storeLookup (mergeLoopEv44 struct msg store ps).1 q = some h1 ∧
        EntryReady h1 msg ∧ ∀ nm, fieldLen h0 nm ≤ fieldLen h1 nm := by
  induction ps with
  | nil =>
    intro store hinv q h0 hq
    exact ⟨h0, hq, hinv q h0 hq, fun nm => le_refl _⟩
  | cons p rest ih =>
    intro store hinv q h0 hq
    cases hlp : storeLookup store p with
    | some g =>
      have hrg := hinv p g hlp
      have hstep := mergePath_of_ready struct msg store p g hlp hrg
      unfold mergeLoopEv44
      rw [hstep]
      dsimp only
      obtain ⟨hok, hready', hgrow⟩ := mergeEv44_ready g msg hrg
      have hinv1 : ∀ q2 h2,
          storeLookup (storeInsert store p (mergeEv44 g msg).1) q2 = some h2 →
          EntryReady h2 msg := by
        intro q2 h2 hq2
        rw [lookup_insert_split] at hq2
        by_cases hq2p : q2 = p
        · rw [if_pos hq2p] at hq2
          rw [(Option.some.inj hq2).symm]
          exact hready'
        · rw [if_neg hq2p] at hq2
          exact hinv q2 h2 hq2
      by_cases hqp : q = p
      · subst hqp
        have hg0 : h0 = g := by
          rw [hq] at hlp
          exact Option.some.inj hlp
        subst hg0
        obtain ⟨h1, hh1, hr1, hgrow1⟩ :=
          ih (storeInsert store q (mergeEv44 h0 msg).1) hinv1 q (mergeEv44 h0 msg).1
            (by rw [lookup_insert_split, if_pos rfl])
        exact ⟨h1, hh1, hr1, fun nm => le_trans (hgrow nm) (hgrow1 nm)⟩
      · obtain ⟨h1, hh1, hr1, hgrow1⟩ :=
          ih (storeInsert store p (mergeEv44 g msg).1) hinv1 q h0
            (by rw [lookup_insert_split, if_neg hqp]; exact hq)
        exact ⟨h1, hh1, hr1, hgrow1⟩
    | none =>
      have hqp : q ≠ p := by
        intro hc
        rw [hc, hlp] at hq
        exact Option.noConfusion hq
      have hpath : mergePathEv44 struct msg store p = exceptBranchEv44 struct msg store p := by
        unfold mergePathEv44
        rw [hlp]
      unfold mergeLoopEv44
      rw [hpath]
      cases hexc : exceptBranchEv44 struct msg store p with
      | mk s1 e =>
        cases e with
        | some e =>
          dsimp only
          have hfr : storeLookup s1 q = storeLookup store q := by
            have := exceptBranch_lookup_ne struct msg store p q hqp
            rw [hexc] at this
            exact this
          exact ⟨h0, by rw [hfr]; exact hq, hinv q h0 hq, fun nm => le_refl _⟩
        | none =>
          dsimp only
          obtain ⟨ginit, hgm, hlook⟩ :=
            exceptBranch_ok struct msg store p (by rw [hexc])
          have hlook1 : ∀ q2, storeLookup s1 q2
              = if q2 = p then some (mergeEv44 ginit msg).1 else storeLookup store q2 := by
            intro q2
            have := hlook q2
            rw [hexc] at this
            exact this
          have hinv1 : ∀ q2 h2, storeLookup s1 q2 = some h2 → EntryReady h2 msg := by
            intro q2 h2 hq2
            rw [hlook1 q2] at hq2
            by_cases hq2p : q2 = p
            · rw [if_pos hq2p] at hq2
              rw [(Option.some.inj hq2).symm]
              exact mergeEv44_ok_ready ginit msg hgm
            · rw [if_neg hq2p] at hq2
              exact hinv q2 h2 hq2
          exact ih s1 hinv1 q h0 (by rw [hlook1 q, if_neg hqp]; exact hq)

theorem mergePath_ok_entry (struct : NexusNode) (msg : Ev44Message)
    (store : Store) (p : NexusPath)
    (hok : (mergePathEv44 struct msg store p).2 = none) :
    (storeLookup (mergePathEv44 struct msg store p).1 p).isSome = true := by
  cases hl : storeLookup store p with
  | none =>
    have heq : mergePathEv44 struct msg store p = exceptBranchEv44 struct msg store p := by
      unfold mergePathEv44
      rw [hl]
    rw [heq] at hok ⊢
    obtain ⟨ginit, _, hlook⟩ := exceptBranch_ok struct msg store p hok
    rw [hlook p, if_pos rfl]
    rfl
  | some g =>
    unfold mergePathEv44 at hok ⊢
    rw [hl] at hok ⊢
    dsimp only at hok ⊢
    cases hm : mergeEv44 g msg with
    | mk g' e =>
      rw [hm] at hok
      cases e with
      | none =>
        dsimp only
        simp [lookup_insert_split]
      | some e =>
        cases e with
        | keyError =>
          dsimp only at hok ⊢
          obtain ⟨ginit, _, hlook⟩ :=
            exceptBranch_ok struct msg (storeInsert store p g') p hok
          rw [hlook p, if_pos rfl]
          rfl
        | valueError => dsimp only at hok; exact Option.noConfusion hok
        | notImplementedError => dsimp only at hok; exact Option.noConfusion hok

theorem mergeLoop_isSome (struct : NexusNode) (msg : Ev44Message)
    (ps : List NexusPath) : ∀ store q, (storeLookup store q).isSome = true →
    (storeLookup (mergeLoopEv44 struct msg store ps).1 q).isSome = true := by
  induction ps with
  | nil => intro store q h; exact h
  | cons p rest ih =>
    intro store q h
    unfold mergeLoopEv44
    cases hs : mergePathEv44 struct msg store p with
    | mk store' e =>
      have h' : (storeLookup store' q).isSome = true := by
        have := mergePath_isSome struct msg store p q h
        rw [hs] at this
        exact this
      cases e with
      | none => exact ih store' q h'
      | some e => exact h'

theorem mergeLoop_ok_mem (struct : NexusNode) (msg : Ev44Message)
    (ps : List NexusPath) : ∀ store,
    (mergeLoopEv44 struct msg store ps).2 = none →
    ∀ p, p ∈ ps →
    (storeLookup (mergeLoopEv44 struct msg store ps).1 p).isSome = true := by
  induction ps with
  | nil =>
    intro store _ p hp
    cases hp
  | cons q rest ih =>
    intro store hok p hp
    unfold mergeLoopEv44 at hok ⊢
    cases hs : mergePathEv44 struct msg store q with
    | mk s1 e =>
      rw [hs] at hok
      cases e with
      | some e => dsimp only at hok; exact Option.noConfusion hok
      | none =>
        dsimp only at hok ⊢
        rcases List.mem_cons.mp hp with hpq | hpr
        · subst hpq
          have hentry := mergePath_ok_entry struct msg store p (by rw [hs])
          rw [hs] at hentry
          exact mergeLoop_isSome struct msg rest s1 p hentry
        · exact ih s1 hok p hpr

mutual
theorem iterNexusStructure_shift (n : NexusNode) (path : NexusPath) :
    iterNexusStructure n (some path)
      = (iterNexusStructure n none).map (fun pn => (path ++ nodeName n :: pn.1, pn.2)) := by
  cases n with
  | mk nm md cf attrs ch =>
    cases ch with
    | none => simp [iterNexusStructure]
    | some cs =>
      rw [iterNexusStructure, iterNexusStructure]
      rw [List.map_cons]
      refine congrArg₂ _ rfl ?_
      rw [iterNexusChildren_shift cs
        (path ++ [nodeName (NexusNode.mk nm md cf attrs (some cs))])]
      refine List.map_congr_left fun pn _ => ?_
      simp
theorem iterNexusChildren_shift (cs : List NexusNode) (path : NexusPath) :
    iterNexusChildren cs path
      = (iterNexusChildren cs []).map (fun pn => (path ++ pn.1, pn.2)) := by
  cases cs with
  | nil => simp [iterNexusChildren]
  | cons c rest =>
    rw [iterNexusChildren, iterNexusChildren]
    rw [List.map_append]
    refine congrArg₂ _ ?_ ?_
    · rw [iterNexusStructure_shift c path, iterNexusStructure_shift c []]
      rw [List.map_map]
      refine List.map_congr_left fun pn _ => ?_
      simp
    · exact iterNexusChildren_shift rest path
end

theorem iter_mem_of_rooted (c : NexusNode) (path p : NexusPath) (m : NexusNode)
    (h : (p, m) ∈ iterNexusStructure c (some path)) :
    ∃ q, p = path ++ nodeName c :: q ∧ (q, m) ∈ iterNexusStructure c none := by
  rw [iterNexusStructure_shift] at h
  obtain ⟨⟨q, m'⟩, hmem, heq⟩ := List.mem_map.mp h
  obtain ⟨h1, h2⟩ := Prod.mk.inj heq
  exact ⟨q, h1.symm, h2 ▸ hmem⟩

theorem mem_iterChildren (cs : List NexusNode) (path p : NexusPath) (m : NexusNode)
    (h : (p, m) ∈ iterNexusChildren cs path) :
    ∃ c, c ∈ cs ∧ (p, m) ∈ iterNexusStructure c (some path) := by
  induction cs with
  | nil => simp [iterNexusChildren] at h
  | cons c rest ih =>
    rw [iterNexusChildren] at h
    rcases List.mem_append.mp h with h1 | h2
    · exact ⟨c, List.mem_cons_self c rest, h1⟩
    · obtain ⟨c', hc', hm⟩ := ih h2
      exact ⟨c', List.mem_cons_of_mem c hc', hm⟩

theorem find?_first_of_nodup (cs : List NexusNode) (c : NexusNode) (hc : c ∈ cs)
    (hnd : (cs.map nodeName).Nodup) :
    cs.find? (fun x => nodeName x == nodeName c) = some c := by
  induction cs with
  | nil => cases hc
  | cons d rest ih =>
    rw [List.map_cons, List.nodup_cons] at hnd
    rcases List.mem_cons.mp hc with hcd | hcr
    · subst hcd
      simp [List.find?]
    · have hne : (nodeName d == nodeName c) = false := by
        refine beq_eq_false_iff_ne.mpr fun he => ?_
        exact hnd.1 (he ▸ List.mem_map_of_mem nodeName hcr)
      rw [List.find?, hne]
      exact ih hcr hnd.2

theorem uniqList_mem (cs : List NexusNode) (c : NexusNode) (hc : c ∈ cs)
    (h : uniqList cs = true) : uniqNames c = true := by
  induction cs with
  | nil => cases hc
  | cons d rest ih =>
    rw [uniqList, Bool.and_eq_true] at h
    rcases List.mem_cons.mp hc with hcd | hcr
    · rw [hcd]; exact h.1
    · exact ih hcr h.2

theorem find_of_iter_aux (k : Nat) : ∀ n : NexusNode, sizeOf n ≤ k →
    uniqNames n = true → ∀ p m, (p, m) ∈ iterNexusStructure n none →
    findNexusStructure n p = .ok m := by
  induction k with
  | zero =>
    intro n hs
    exfalso
    cases n with
    | mk nm md cf attrs ch => simp at hs
  | succ k ih =>
    intro n hs hu p m hmem
    cases n with
    | mk nm md cf attrs ch =>
      cases ch with
      | none =>
        rw [iterNexusStructure] at hmem
        rcases List.mem_cons.mp hmem with heq | hin
        · obtain ⟨hp, hm⟩ := Prod.mk.inj heq
          rw [hp, hm]
          rfl
        · cases hin
      | some cs =>
        rw [iterNexusStructure] at hmem
        rcases List.mem_cons.mp hmem with heq | hin
        · obtain ⟨hp, hm⟩ := Prod.mk.inj heq
          rw [hp, hm]
          rfl
        · obtain ⟨c, hc, hmc⟩ := mem_iterChildren cs [] p m hin
          obtain ⟨q, hpq, hq⟩ := iter_mem_of_rooted c [] p m hmc
          rw [List.nil_append] at hpq
          subst hpq
          rw [uniqNames, Bool.and_eq_true, decide_eq_true_eq] at hu
          rw [findNexusStructure]
          dsimp only [NexusNode.children]
          rw [find?_first_of_nodup cs c hc hu.1]
          have hszc : sizeOf c ≤ k := by
            have h1 := List.sizeOf_lt_of_mem hc
            simp only [NexusNode.mk.sizeOf_spec, Option.some.sizeOf_spec] at hs
            omega
          exact ih c hszc (uniqList_mem cs c hc hu.2) q m hq

theorem exceptBranch_entry_exists (struct : NexusNode) (msg : Ev44Message)
    (store : Store) (p : NexusPath) (parent c : NexusNode)
    (hpar : findParent struct p = .ok parent) (hch : parent.children = some [c]) :
    (storeLookup (exceptBranchEv44 struct msg store p).1 p).isSome = true := by
  unfold exceptBranchEv44
  rw [hpar]
  dsimp only
  rw [hch]
  dsimp only
  rw [if_neg (by simp)]
  cases hinit : initializeEv44 (parent.setChildren (some [])) with
  | mk ginit e1 =>
    cases e1 with
    | some e =>
      dsimp only
      simp [lookup_insert_split]
    | none =>
      dsimp only
      cases hm : mergeEv44 ginit msg with
      | mk gm e2 =>
        dsimp only
        simp [lookup_insert_split]

/-- C10: on any tree whose sibling names are pairwise distinct, every
`(path, node)` pair produced by `iter_nexus_structure` is found again by
`find_nexus_structure`, which returns exactly that node without raising; in
particular the empty path returns the tree root itself. -/
theorem iter_find_round_trip (t : NexusNode) (hu : uniqNames t = true) :
    (∀ p m, (p, m) ∈ iterNexusStructure t none → findNexusStructure t p = .ok m) ∧
    findNexusStructure t [] = .ok t :=
  ⟨fun p m hm => find_of_iter_aux (sizeOf t) t (le_refl _) hu p m hm, rfl⟩

/-- Witness for `iter_find_round_trip`: the concrete detector template has
distinct sibling names, yields `([some "detector"], detGroup)` during
traversal, and `find_nexus_structure` returns that node for that path. -/
theorem iter_find_round_trip_witness :
    uniqNames tmplDetector = true ∧
    ([some "detector"], detGroup) ∈ iterNexusStructure tmplDetector none ∧
    findNexusStructure tmplDetector [some "detector"] = .ok detGroup := by
  refine ⟨by decide, ?_, ?_⟩
  · exact List.mem_cons_of_mem _ (List.mem_append_left _ (List.mem_cons_self _ _))
  · exact (iter_find_round_trip tmplDetector (by decide)).1 [some "detector"] detGroup
      (List.mem_cons_of_mem _ (List.mem_append_left _ (List.mem_cons_self _ _)))

/-- C8: a message whose `source_name` matches no ev44 placeholder anywhere in
the template makes `merge_message` return without raising, with the store
completely unchanged (the template, a read-only input of the pure embedding,
is never modified by any call). -/
theorem no_match_noop (store : Store) (struct : NexusNode) (msg : Ev44Message)
    (h : ∀ pn ∈ iterNexusStructure struct none,
      ¬(pn.2.module = some "ev44" ∧ configSource pn.2 = some msg.source_name)) :
    mergeMessage store struct "ev44" msg = (store, none) := by
  have hm : findEv44MatchingPaths struct msg = [] := by
    rw [findEv44MatchingPaths, List.filterMap_eq_nil_iff]
    intro pn hpn
    rw [if_neg (h pn hpn)]
  unfold mergeMessage
  rw [if_pos rfl]
  unfold mergeMessageEv44
  rw [hm]
  rfl

/-- Witness for `no_match_noop`: a message for source `"nowhere"` against the
detector template leaves a nonempty store untouched. -/
theorem no_match_noop_witness :
    mergeMessage [(pathMonitor, monGroup)] tmplDetector "ev44"
      { source_name := "nowhere", reference_time := [1], time_of_flight := [2],
        reference_time_index := [0], pixel_id := none }
      = ([(pathMonitor, monGroup)], none) :=
  no_match_noop [(pathMonitor, monGroup)] tmplDetector _ (by decide)

/-- C7: merging a message with null (or absent) `pixel_id` into a
materialized group raises nothing, leaves `event_id` exactly as it was, and
grows `event_time_offset` by the batch's `time_of_flight` length and
`event_index` by the batch's `reference_time_index` length. -/
theorem optional_pixel_id (g : NexusNode) (msg : Ev44Message) (z v w : List Int)
    (hpx : msg.pixel_id = none)
    (hz : fieldVals g "event_time_zero" = some z)
    (ho : fieldVals g "event_time_offset" = some v)
    (hi : fieldVals g "event_index" = some w) :
    (mergeEv44 g msg).2 = none ∧
    fieldVals (mergeEv44 g msg).1 "event_id" = fieldVals g "event_id" ∧
    fieldLen (mergeEv44 g msg).1 "event_time_offset"
      = v.length + msg.time_of_flight.length ∧
    fieldLen (mergeEv44 g msg).1 "event_index"
      = w.length + msg.reference_time_index.length := by
  obtain ⟨he, _, s2, s3, s4, _, _⟩ :=
    mergeEv44_spec g msg z v w hz ho hi (fun hne => absurd hpx hne)
  exact ⟨he, s4 hpx, by simp [fieldLen, s2], by simp [fieldLen, s3]⟩

/-- Witness for `optional_pixel_id` at a freshly initialized detector group
and a two-event batch without pixel ids. -/
theorem optional_pixel_id_witness :
    (mergeEv44 (initializeEv44 detGroup).1
      { source_name := "bankA", reference_time := [9], time_of_flight := [4, 5],
        reference_time_index := [0], pixel_id := none }).2 = none ∧
    fieldVals (mergeEv44 (initializeEv44 detGroup).1
      { source_name := "bankA", reference_time := [9], time_of_flight := [4, 5],
        reference_time_index := [0], pixel_id := none }).1 "event_id"
      = fieldVals (initializeEv44 detGroup).1 "event_id" ∧
    fieldLen (mergeEv44 (initializeEv44 detGroup).1
      { source_name := "bankA", reference_time := [9], time_of_flight := [4, 5],
        reference_time_index := [0], pixel_id := none }).1 "event_time_offset"
      = 0 + 2 ∧
    fieldLen (mergeEv44 (initializeEv44 detGroup).1
      { source_name := "bankA", reference_time := [9], time_of_flight := [4, 5],
        reference_time_index := [0], pixel_id := none }).1 "event_index" = 0 + 1 :=
  optional_pixel_id (initializeEv44 detGroup).1 _ [] [] [] rfl rfl rfl rfl

/-- C4: when the template parent of the first matched placeholder path has
more than one child, the first message matching that path (no entry yet in
the store) makes `merge_message` raise the multiple-placeholders schema
error (`ValueError` in the source) and leaves the store with no entry for
that path; with a single-child parent, materialization succeeds and the
path ends up with a store entry. -/
theorem placeholder_uniqueness :
    (∀ (store : Store) (struct : NexusNode) (msg : Ev44Message) (p : NexusPath)
      (rest : List NexusPath) (parent : NexusNode) (cs : List NexusNode),
      findEv44MatchingPaths struct msg = p :: rest →
      storeLookup store p = none →
      findParent struct p = .ok parent →
      parent.children = some cs → 1 < cs.length →
      mergeMessage store struct "ev44" msg = (store, some .valueError) ∧
      storeLookup (mergeMessage store struct "ev44" msg).1 p = none) ∧
    (∀ (store : Store) (struct : NexusNode) (msg : Ev44Message) (p : NexusPath)
      (rest : List NexusPath) (parent c : NexusNode),
      findEv44MatchingPaths struct msg = p :: rest →
      storeLookup store p = none →
      findParent struct p = .ok parent →
      parent.children = some [c] →
      ∃ g, storeLookup (mergeMessage store struct "ev44" msg).1 p = some g) := by
  constructor
  · intro store struct msg p rest parent cs hmatch hlookup hpar hch hlen
    have hres : mergeMessage store struct "ev44" msg = (store, some .valueError) := by
      unfold mergeMessage
      rw [if_pos rfl]
      unfold mergeMessageEv44
      rw [hmatch]
      unfold mergeLoopEv44
      have hpath : mergePathEv44 struct msg store p = (store, some .valueError) := by
        unfold mergePathEv44
        rw [hlookup]
        dsimp only
        unfold exceptBranchEv44
        rw [hpar]
        dsimp only
        rw [hch]
        dsimp only
        rw [if_pos hlen]
      rw [hpath]
    exact ⟨hres, by rw [hres]; exact hlookup⟩
  · intro store struct msg p rest parent c hmatch hlookup hpar hch
    unfold mergeMessage
    rw [if_pos rfl]
    unfold mergeMessageEv44
    rw [hmatch]
    unfold mergeLoopEv44
    have hpath : mergePathEv44 struct msg store p = exceptBranchEv44 struct msg store p := by
      unfold mergePathEv44
      rw [hlookup]
    rw [hpath]
    have hsome := exceptBranch_entry_exists struct msg store p parent c hpar hch
    cases hexc : exceptBranchEv44 struct msg store p with
    | mk s1 e =>
      rw [hexc] at hsome
      cases e with
      | none =>
        dsimp only
        exact Option.isSome_iff_exists.mp (mergeLoop_isSome struct msg rest s1 p hsome)
      | some e =>
        dsimp only
        exact Option.isSome_iff_exists.mp hsome

/-- Witness for `placeholder_uniqueness`: the crowded template (placeholder
plus a `depends_on` dataset in one group) raises the schema error and stores
nothing, while the single-child detector template materializes its path. -/
theorem placeholder_uniqueness_witness :
    (mergeMessage [] tmplCrowded "ev44" msgBankA = ([], some .valueError) ∧
      storeLookup (mergeMessage [] tmplCrowded "ev44" msgBankA).1
        [some "detector", none] = none) ∧
    ∃ g, storeLookup (mergeMessage [] tmplDetector "ev44" msgBankA).1
        pathDetector = some g :=
  ⟨placeholder_uniqueness.1 [] tmplCrowded msgBankA [some "detector", none] []
      crowdedGroup [phBankA, createDataset "depends_on" "string" [] none]
      rfl rfl rfl rfl (by decide),
   placeholder_uniqueness.2 [] tmplDetector msgBankA pathDetector []
      detGroup phBankA rfl rfl rfl rfl⟩

/-- C6 counterexample: the datasets appended by `_initialize_ev44` carry the
dtype string `"int"`, not `"int64"` as the claim states. -/
theorem initialize_dtype_counterexample :
    fieldDtype (initializeEv44 (NexusNode.mk (some "det") none none none (some []))).1
        "event_time_zero" = some "int" ∧
    fieldDtype (initializeEv44 (NexusNode.mk (some "det") none none none (some []))).1
        "event_time_zero" ≠ some "int64" := by
  exact ⟨by decide, by decide⟩

/-- C6 (amended): initializing a named group appends, in order, empty
datasets `event_time_zero` (dtype `"int"`, unit `"ns"`), `event_time_offset`
(dtype `"int"`, unit `"ns"`), `event_index` (dtype `"int"`, no unit), and
`event_id` (dtype `"int"`, no unit), where `event_id` is omitted exactly
when the group's name contains the substring `"monitor"`; no error is
raised. -/
theorem initialize_fields (g : NexusNode) (nm : String) (hn : g.name = some nm) :
    (initializeEv44 g).2 = none ∧
    (initializeEv44 g).1.children = some ((g.children.getD []) ++
      [createDataset "event_time_zero" "int" [] (some "ns"),
       createDataset "event_time_offset" "int" [] (some "ns"),
       createDataset "event_index" "int" [] none] ++
      (if containsMonitor nm then [] else [createDataset "event_id" "int" [] none])) := by
  unfold initializeEv44
  rw [hn]
  dsimp only
  by_cases hm : containsMonitor nm
  · rw [if_pos hm, if_pos hm]
    exact ⟨rfl, by rw [setChildren_children]; simp⟩
  · rw [if_neg hm, if_neg hm]
    exact ⟨rfl, by rw [setChildren_children]⟩

/-- Witness for `initialize_fields`: a monitor group gets the three datasets
and no `event_id`; a detector group gets all four. -/
theorem initialize_fields_witness :
    ((initializeEv44 monGroup).2 = none ∧
      (initializeEv44 monGroup).1.children = some ((monGroup.children.getD []) ++
        [createDataset "event_time_zero" "int" [] (some "ns"),
         createDataset "event_time_offset" "int" [] (some "ns"),
         createDataset "event_index" "int" [] none] ++
        (if containsMonitor "monitor0" then []
         else [createDataset "event_id" "int" [] none]))) ∧
    ((initializeEv44 detGroup).2 = none ∧
      (initializeEv44 detGroup).1.children = some ((detGroup.children.getD []) ++
        [createDataset "event_time_zero" "int" [] (some "ns"),
         createDataset "event_time_offset" "int" [] (some "ns"),
         createDataset "event_index" "int" [] none] ++
        (if containsMonitor "detector" then []
         else [createDataset "event_id" "int" [] none]))) :=
  ⟨initialize_fields monGroup "monitor0" rfl, initialize_fields detGroup "detector" rfl⟩

/-- C2 counterexample: merging a `pixel_id`-carrying message into an
already-materialized monitor group makes `merge_func` raise `KeyError` on
the missing `event_id`, which the bridge catches and answers by replacing
the existing entry with a freshly initialized group: the accumulated
`event_time_offset` of length 2 is reset to length 1 — the store entry
shrank, so the grows-only invariant is violated by the code. -/
theorem store_growth_counterexample :
    (storeLookup (mergeMessage [] tmplMonitor "ev44" msgMon1).1 pathMonitor).isSome
      = true ∧
    fieldLenAt (mergeMessage [] tmplMonitor "ev44" msgMon1).1 pathMonitor
      "event_time_offset" = 2 ∧
    fieldLenAt (mergeMessage (mergeMessage [] tmplMonitor "ev44" msgMon1).1
        tmplMonitor "ev44" msgMon2).1 pathMonitor "event_time_offset" = 1 := by
  exact ⟨by decide, by decide, by decide⟩

/-- C2 (amended): provided every entry of the store is ready for the message
(its `event_time_zero`, `event_time_offset` and `event_index` datasets carry
values, and `event_id` exists whenever the message brings `pixel_id` — the
situation the in-place merge can complete without a `KeyError`), a
`merge_message` call only lengthens the field arrays of existing entries,
and a path can enter the store only when the message matches it. -/
theorem store_growth (store : Store) (struct : NexusNode) (msg : Ev44Message)
    (hready : ∀ q g, storeLookup store q = some g → EntryReady g msg) :
    (∀ q g, storeLookup store q = some g →
      ∃ g', storeLookup (mergeMessage store struct "ev44" msg).1 q = some g' ∧
        ∀ nm, fieldLen g nm ≤ fieldLen g' nm) ∧
    (∀ p g', storeLookup store p = none →
      storeLookup (mergeMessage store struct "ev44" msg).1 p = some g' →
      p ∈ findEv44MatchingPaths struct msg) := by
  have hunf : mergeMessage store struct "ev44" msg = mergeMessageEv44 store struct msg := by
    unfold mergeMessage
    rw [if_pos rfl]
  rw [hunf]
  constructor
  · intro q g hq
    obtain ⟨g', h1, _, h3⟩ := mergeLoop_growth struct msg
      (findEv44MatchingPaths struct msg) store hready q g hq
    exact ⟨g', h1, h3⟩
  · intro p g' hnone hsome
    by_contra hnotin
    unfold mergeMessageEv44 at hsome
    rw [mergeLoop_lookup_notin struct msg (findEv44MatchingPaths struct msg)
      store p hnotin, hnone] at hsome
    exact Option.noConfusion hsome

/-- Witness for `store_growth`: a second `bankA` batch grows the already
materialized detector entry. -/
theorem store_growth_witness :
    (∀ q g, storeLookup [(pathDetector, detEntryAfterFirst)] q = some g →
      EntryReady g msgBankA2) ∧
    ∃ g', storeLookup (mergeMessage [(pathDetector, detEntryAfterFirst)]
        tmplDetector "ev44" msgBankA2).1 pathDetector = some g' ∧
      ∀ nm, fieldLen detEntryAfterFirst nm ≤ fieldLen g' nm := by
  have hready : ∀ q g, storeLookup [(pathDetector, detEntryAfterFirst)] q = some g →
      EntryReady g msgBankA2 := by
    intro q g hq
    have hq' : (if pathDetector = q then some detEntryAfterFirst else none) = some g := hq
    split at hq'
    · rw [← Option.some.inj hq']
      exact ⟨rfl, rfl, rfl, fun _ => rfl⟩
    · exact Option.noConfusion hq'
  exact ⟨hready, (store_growth [(pathDetector, detEntryAfterFirst)] tmplDetector
    msgBankA2 hready).1 pathDetector detEntryAfterFirst rfl⟩

/-- C3 counterexample: the very first `pixel_id`-carrying message for a
monitor path raises `KeyError` during the merge, yet the freshly
materialized entry stays in the store with the batch's partially appended
fields (`event_time_zero` and `event_time_offset` already extended) — the
store is not left unmodified for the failing path. -/
theorem merge_atomicity_counterexample :
    (mergeMessage [] tmplMonitor "ev44" msgMon2).2 = some .keyError ∧
    (storeLookup (mergeMessage [] tmplMonitor "ev44" msgMon2).1 pathMonitor).isSome
      = true ∧
    fieldLenAt (mergeMessage [] tmplMonitor "ev44" msgMon2).1 pathMonitor
      "event_time_offset" = 1 ∧
    fieldLenAt (mergeMessage [] tmplMonitor "ev44" msgMon2).1 pathMonitor
      "event_time_zero" = 1 := by
  exact ⟨by decide, by decide, by decide, by decide⟩

/-- C3 (amended): when the error raised while processing a fresh matched
path is the multiple-placeholders schema violation (`ValueError`), the
bridge aborts before mutating anything and the store is returned unchanged;
only merge-internal `KeyError`s after materialization leave a partially
appended entry behind. -/
theorem valueError_leaves_store_unchanged (struct : NexusNode) (msg : Ev44Message)
    (store : Store) (p : NexusPath)
    (hnone : storeLookup store p = none)
    (herr : (mergePathEv44 struct msg store p).2 = some .valueError) :
    (mergePathEv44 struct msg store p).1 = store := by
  have hpath : mergePathEv44 struct msg store p = exceptBranchEv44 struct msg store p := by
    unfold mergePathEv44
    rw [hnone]
  rw [hpath] at herr ⊢
  unfold exceptBranchEv44 at herr ⊢
  cases hpar : findParent struct p with
  | error e => rfl
  | ok parent =>
    rw [hpar] at herr
    dsimp only at herr ⊢
    cases hch : parent.children with
    | none => rfl
    | some cs =>
      rw [hch] at herr
      dsimp only at herr ⊢
      by_cases hlen : 1 < cs.length
      · rw [if_pos hlen]
      · rw [if_neg hlen] at herr ⊢
        cases hinit : initializeEv44 (parent.setChildren (some [])) with
        | mk ginit e1 =>
          rw [hinit] at herr
          cases e1 with
          | some e =>
            dsimp only at herr
            have := initializeEv44_noValueError (parent.setChildren (some []))
            rw [hinit] at this
            simp at this
            rw [this] at herr
            simp at herr
          | none =>
            dsimp only at herr ⊢
            cases hm : mergeEv44 ginit msg with
            | mk gm e2 =>
              rw [hm] at herr
              dsimp only at herr
              have := mergeEv44_noValueError ginit msg
              rw [hm] at this
              simp at this
              rcases this with h2 | h2
              · rw [h2] at herr
                simp at herr
              · rw [h2] at herr
                simp at herr

/-- Witness for `valueError_leaves_store_unchanged` at the crowded template:
the schema violation is raised and the store comes back exactly as it was. -/
theorem valueError_leaves_store_unchanged_witness :
    storeLookup ([] : Store) [some "detector", none] = none ∧
    (mergePathEv44 tmplCrowded msgBankA [] [some "detector", none]).2
      = some .valueError ∧
    (mergePathEv44 tmplCrowded msgBankA [] [some "detector", none]).1 = [] :=
  ⟨rfl, by decide,
    valueError_leaves_store_unchanged tmplCrowded msgBankA [] [some "detector", none]
      rfl (by decide)⟩

/-- C1: merging batch A then batch B for the same source into the detector
template leaves `event_time_offset = A.time_of_flight ++ B.time_of_flight`
and `event_index = A.reference_time_index ++ (B.reference_time_index + |A.time_of_flight|)`;
and, in general, a successful `_merge_ev44` appends the batch-local
`reference_time_index` shifted by the length of `event_time_offset` as
observed before the batch's merge. -/
theorem offset_correctness :
    (∀ (rt1 tof1 rti1 rt2 tof2 rti2 : List Int) (px1 px2 : Option (List Int)),
      (mergeMessage [] tmplDetector "ev44" ⟨"bankA", rt1, tof1, rti1, px1⟩).2
        = none ∧
      (mergeMessage (mergeMessage [] tmplDetector "ev44"
          ⟨"bankA", rt1, tof1, rti1, px1⟩).1 tmplDetector "ev44"
          ⟨"bankA", rt2, tof2, rti2, px2⟩).2 = none ∧
      fieldValsAt (mergeMessage (mergeMessage [] tmplDetector "ev44"
          ⟨"bankA", rt1, tof1, rti1, px1⟩).1 tmplDetector "ev44"
          ⟨"bankA", rt2, tof2, rti2, px2⟩).1 pathDetector "event_time_offset"
        = some (tof1 ++ tof2) ∧
      fieldValsAt (mergeMessage (mergeMessage [] tmplDetector "ev44"
          ⟨"bankA", rt1, tof1, rti1, px1⟩).1 tmplDetector "ev44"
          ⟨"bankA", rt2, tof2, rti2, px2⟩).1 pathDetector "event_index"
        = some (rti1 ++ rti2.map (· + (tof1.length : Int)))) ∧
    (∀ (g : NexusNode) (msg : Ev44Message) (v w : List Int),
      fieldVals g "event_time_offset" = some v →
      fieldVals g "event_index" = some w →
      (mergeEv44 g msg).2 = none →
      fieldVals (mergeEv44 g msg).1 "event_index"
        = some (w ++ msg.reference_time_index.map (· + (v.length : Int)))) := by
  constructor
  · intro rt1 tof1 rti1 rt2 tof2 rti2 px1 px2
    have hmap : rti1.map (fun x => x + (0 : Int)) = rti1 := by simp
    cases px1 <;> cases px2 <;> refine ⟨rfl, rfl, rfl, ?_⟩
    all_goals conv_rhs => rw [← hmap]
    all_goals rfl
  · intro g msg v w ho hi hsucc
    unfold mergeEv44 at hsucc ⊢
    cases h1 : mergeField g "event_time_zero" fun x => x ++ msg.reference_time with
    | none => rw [h1] at hsucc; simp at hsucc
    | some pr1 =>
      obtain ⟨g1, o1⟩ := pr1
      rw [h1] at hsucc
      dsimp only at hsucc ⊢
      obtain ⟨_, _, h1c⟩ := mergeField_eq_some g g1 "event_time_zero" _ o1 h1
      have ho1 : fieldVals g1 "event_time_offset" = some v := by
        rw [h1c _ (by decide)]; exact ho
      have hi1 : fieldVals g1 "event_index" = some w := by
        rw [h1c _ (by decide)]; exact hi
      cases h2 : mergeField g1 "event_time_offset" fun x => x ++ msg.time_of_flight with
      | none => rw [h2] at hsucc; simp at hsucc
      | some pr2 =>
        obtain ⟨g2, o2⟩ := pr2
        rw [h2] at hsucc
        dsimp only at hsucc ⊢
        obtain ⟨h2a, _, h2c⟩ := mergeField_eq_some g1 g2 "event_time_offset" _ o2 h2
        have ho2 : o2 = v := by
          rw [h2a] at ho1
          exact Option.some.inj ho1
        have hi2 : fieldVals g2 "event_index" = some w := by
          rw [h2c _ (by decide)]; exact hi1
        cases h3 : mergeField g2 "event_index"
            fun x => x ++ msg.reference_time_index.map (· + (o2.length : Int)) with
        | none => rw [h3] at hsucc; simp at hsucc
        | some pr3 =>
          obtain ⟨g3, o3⟩ := pr3
          rw [h3] at hsucc
          dsimp only at hsucc ⊢
          obtain ⟨h3a, h3b, h3c⟩ := mergeField_eq_some g2 g3 "event_index" _ o3 h3
          have ho3 : o3 = w := by
            rw [h3a] at hi2
            exact Option.some.inj hi2
          rw [ho2, ho3] at h3b
          cases hpx : msg.pixel_id with
          | none =>
            dsimp only
            exact h3b
          | some px =>
            dsimp only
            rw [hpx] at hsucc
            dsimp only at hsucc
            cases h4 : mergeField g3 "event_id" fun x => x ++ px with
            | none => rw [h4] at hsucc; simp at hsucc
            | some pr4 =>
              obtain ⟨g4, o4⟩ := pr4
              dsimp only
              obtain ⟨_, _, h4c⟩ := mergeField_eq_some g3 g4 "event_id" _ o4 h4
              rw [h4c _ (by decide)]
              exact h3b

/-- Witness for `offset_correctness`: a second bank-A batch appended to the
entry left by the first one receives the running index `[0, 2]`. -/
theorem offset_correctness_witness :
    fieldVals detEntryAfterFirst "event_time_offset" = some [5, 6] ∧
    fieldVals detEntryAfterFirst "event_index" = some [0] ∧
    (mergeEv44 detEntryAfterFirst msgBankA2).2 = none ∧
    fieldVals (mergeEv44 detEntryAfterFirst msgBankA2).1 "event_index"
      = some [0, 2] :=
  ⟨rfl, rfl, by decide,
    offset_correctness.2 detEntryAfterFirst msgBankA2 [5, 6] [0] rfl rfl (by decide)⟩

/-- C5: an error-free `merge_message` call merges the message into every
matching path of the template — none is skipped, each ends with a store
entry; and, concretely, a template with two distinct groups whose
placeholders declare the same source, merged with one message, leaves both
paths with entries carrying identical field values, the appended data being
the message's batch. -/
theorem duplicate_placeholder_duplication :
    (∀ (store : Store) (struct : NexusNode) (msg : Ev44Message),
      (mergeMessage store struct "ev44" msg).2 = none →
      ∀ p, p ∈ findEv44MatchingPaths struct msg →
      (storeLookup (mergeMessage store struct "ev44" msg).1 p).isSome = true) ∧
    (∀ (rt tof rti : List Int) (px : Option (List Int)),
      (mergeMessage [] tmplTwoBanks "ev44" ⟨"bankA", rt, tof, rti, px⟩).2 = none ∧
      ∃ gA gB,
        storeLookup (mergeMessage [] tmplTwoBanks "ev44"
          ⟨"bankA", rt, tof, rti, px⟩).1 [some "bank0", none] = some gA ∧
        storeLookup (mergeMessage [] tmplTwoBanks "ev44"
          ⟨"bankA", rt, tof, rti, px⟩).1 [some "bank1", none] = some gB ∧
        (∀ nm, fieldVals gA nm = fieldVals gB nm) ∧
        fieldVals gA "event_time_zero" = some rt ∧
        fieldVals gA "event_time_offset" = some tof ∧
        fieldVals gA "event_index" = some rti) := by
  constructor
  · intro store struct msg hok p hp
    have hunf : mergeMessage store struct "ev44" msg
        = mergeMessageEv44 store struct msg := by
      unfold mergeMessage
      rw [if_pos rfl]
    rw [hunf] at hok ⊢
    exact mergeLoop_ok_mem struct msg (findEv44MatchingPaths struct msg) store hok p hp
  · intro rt tof rti px
    have hmap : rti.map (fun x => x + (0 : Int)) = rti := by simp
    cases px <;> refine ⟨rfl, _, _, rfl, rfl, fun nm => rfl, rfl, rfl, ?_⟩
    all_goals conv_rhs => rw [← hmap]
    all_goals rfl

/-- Witness for `duplicate_placeholder_duplication`: the two-bank template
merged with a concrete bank-A message leaves entries at both matching
paths. -/
theorem duplicate_placeholder_duplication_witness :
    (mergeMessage [] tmplTwoBanks "ev44" msgBankA).2 = none ∧
    [some "bank1", none] ∈ findEv44MatchingPaths tmplTwoBanks msgBankA ∧
    (storeLookup (mergeMessage [] tmplTwoBanks "ev44" msgBankA).1
      [some "bank1", none]).isSome = true :=
  ⟨by decide, by decide,
    duplicate_placeholder_duplication.1 [] tmplTwoBanks msgBankA (by decide)
      [some "bank1", none] (by decide)⟩

theorem combine_empty_store (struct : NexusNode) :
    combineStoreAndStructure [] struct = struct := by
  cases struct with
  | mk nm md cf attrs ch => rfl

theorem combine_untouched_child (store : Store) (c : NexusNode)
    (h : subStore store (nodeName c) = []) :
    combineStoreAndStructure (subStore store (nodeName c)) c = c := by
  rw [h]
  exact combine_empty_store c

end Beamlime
